import Mathlib

/-!
Verification of the `astro-trigger-filter` streaming active-set filter
(`astrotf/radio_pulse.py`), shallowly embedded in Lean 4.

Machine floats are modelled as exact rationals (`ℚ`); Python lists as
`List`; the generator is modelled as an explicit state-passing run that
returns the full list of yielded items together with the final engine
state.
-/

/-- A trigger record.  The Python code works on tuples whose first four
fields are `(t0, w, dm, snr)`; any further fields are an opaque payload
that is passed through unmodified.  The payload is modelled by a single
natural number tag so that two records with equal numeric fields can
still be distinguished. -/
structure Trig where
  t0 : ℚ
  w : ℚ
  dm : ℚ
  snr : ℚ
  payload : ℕ
deriving DecidableEq

instance : Inhabited Trig := ⟨⟨0, 0, 0, 0, 0⟩⟩

/-- `dm_one_delay` from `radio_pulse.py`:
`4.15E3 * (freq_lo_mhz**-2 - freq_hi_mhz**-2)`.  `4.15E3` is exactly
`4150`. -/
def dm_one_delay (freq_lo_mhz freq_hi_mhz : ℚ) : ℚ :=
  4150 * (freq_lo_mhz ^ (-2 : ℤ) - freq_hi_mhz ^ (-2 : ℤ))

/-- The immutable configuration fields of `RadioPulseFilterGen` (set in
`__init__`, never changed afterwards).  `dm1` caches
`dm_one_delay(freq_lo_mhz, freq_hi_mhz)` exactly as `self.dm1` does. -/
structure Gen where
  tol : ℚ
  dm1 : ℚ
  buffer_size : ℕ
  autoflush : Bool
  nn_size : ℕ
  max_dm_diff : ℚ
deriving DecidableEq

/-- The mutable state of `RadioPulseFilterGen`: the active set and the
three statistics counters. -/
structure GenState where
  active_set : List Trig
  num_in : ℕ
  num_out : ℕ
  num_evicted : ℕ
deriving DecidableEq

/-- `RadioPulseFilterGen.__init__`.  The Python constructor performs no
validation; the only way it can fail is the `ZeroDivisionError` raised
by `freq**-2` inside `dm_one_delay` when a frequency is zero.  That
failure is modelled as `none`. -/
def init (freq_lo_mhz freq_hi_mhz tol : ℚ) (buffer_size : ℕ)
    (autoflush : Bool) (nn_size : ℕ) (max_dm_diff : ℚ) : Option Gen :=
  if freq_lo_mhz = 0 ∨ freq_hi_mhz = 0 then none
  else some ⟨tol, dm_one_delay freq_lo_mhz freq_hi_mhz, buffer_size,
    autoflush, nn_size, max_dm_diff⟩

/-- `b0_k` from `RadioPulseFilterGen.unpack`: `t0_k + dm_k * self.dm1`. -/
def b0 (g : Gen) (item : Trig) : ℚ := item.t0 + item.dm * g.dm1

/-- `b1_k` from `RadioPulseFilterGen.unpack`: `b0_k + w_k`. -/
def b1 (g : Gen) (item : Trig) : ℚ := b0 g item + item.w

/-- One neighbour scan of `RadioPulseFilterGen.is_local_max`.  The list
argument holds the neighbours in scan order; `overlap` is the
side-specific intersection test; `cnt` is `intersect_counter`.  The
result is `false` exactly when the Python loop hits `return False`;
falling off the end of the list or hitting `break` gives `true`. -/
def scanNb (g : Gen) (cand : Trig) (overlap : Trig → Bool) :
    List Trig → ℕ → Bool
  | [], _ => true
  | n :: rest, cnt =>
    if |cand.dm - n.dm| ≤ g.max_dm_diff then
      if overlap n then
        if cand.snr ≤ n.snr then false
        else if g.nn_size ≤ cnt + 1 then true
        else scanNb g cand overlap rest (cnt + 1)
      else if g.nn_size ≤ cnt then true
      else scanNb g cand overlap rest cnt
    else scanNb g cand overlap rest cnt

/-- `RadioPulseFilterGen.is_local_max`.  The Python left loop visits
indices `k-1, k-2, ..., 0`, i.e. the list `(as.take k).reverse`; the
right loop visits `k+1, ..., len-1`, i.e. `as.drop (k+1)`.  The left
intersection test is `b1_i + tol >= b0_k`; the right one is
`b1_i <= b1_k + tol`. -/
def is_local_max (g : Gen) (as : List Trig) (k : ℕ) : Bool :=
  let cand := as.getD k default
  scanNb g cand (fun n => b0 g cand ≤ b1 g n + g.tol) ((as.take k).reverse) 0 &&
  scanNb g cand (fun n => b1 g n ≤ b1 g cand + g.tol) (as.drop (k + 1)) 0

/-- The expiry test applied to each active-set member when item `x`
with start time `t0x` arrives: `b1_k < t0_i`. -/
def expired (g : Gen) (t0x : ℚ) (item : Trig) : Bool :=
  b1 g item < t0x

/-- The triggers yielded by the expiry scan of `__call__`: the loop
appends index `k` to `yield_set` exactly when member `k` is expired and
`is_local_max(k)` holds, and afterwards yields `active_set[k]` for each
recorded index, in index order. -/
def expiryEmits (g : Gen) (as : List Trig) (t0x : ℚ) : List Trig :=
  ((List.range as.length).filter
    (fun k => expired g t0x (as.getD k default) && is_local_max g as k)).map
    (fun k => as.getD k default)

/-- The active set after the expiry removals of `__call__`.  The code
deletes the indices of `remove_set` in descending order; since the
removal condition `b1_k < t0_i` depends only on the member itself, this
is the same as keeping exactly the non-expired members. -/
def expiryRemaining (g : Gen) (t0x : ℚ) (as : List Trig) : List Trig :=
  as.filter (fun item => !(expired g t0x item))

/-- The capacity-eviction loop of `__call__`
(`while len(active_set) >= buffer_size`), returning the yielded
triggers, the remaining active set and the number of evictions.  It is
entered only under the guard `buffer_size > 0`, so the `[]` base case
(where the Python condition `0 >= buffer_size` is false) returns
immediately. -/
def evictWhile (g : Gen) : List Trig → List Trig × List Trig × ℕ
  | [] => ([], [], 0)
  | h :: t =>
    if g.buffer_size ≤ (h :: t).length then
      let v := is_local_max g (h :: t) 0
      let r := evictWhile g t
      ((if v then [h] else []) ++ r.1, r.2.1, r.2.2 + 1)
    else ([], h :: t, 0)

/-- Processing of a single incoming item by `__call__`: expiry scan and
yields, expiry removals, the guarded capacity-eviction loop, the final
append of the new item, and the counter updates.  Returns the list of
yielded triggers together with the new state. -/
def step (g : Gen) (s : GenState) (x : Trig) : List Trig × GenState :=
  let e1 := expiryEmits g s.active_set x.t0
  let a1 := expiryRemaining g x.t0 s.active_set
  let ev := if 0 < g.buffer_size then evictWhile g a1 else ([], a1, 0)
  (e1 ++ ev.1,
   { active_set := ev.2.1 ++ [x],
     num_in := s.num_in + 1,
     num_out := s.num_out + e1.length + ev.1.length,
     num_evicted := s.num_evicted + ev.2.2 })

/-- The main loop of `__call__` over a finite input list (no flush). -/
def runList (g : Gen) (s : GenState) : List Trig → List Trig × GenState
  | [] => ([], s)
  | x :: rest =>
    let r := step g s x
    let r2 := runList g r.2 rest
    (r.1 ++ r2.1, r2.2)

/-- The triggers yielded by the `StopIteration` flush branch of
`__call__`: every index passing `is_local_max`, in index order.  Note
that the code does not remove the flushed members from `active_set`. -/
def flushEmits (g : Gen) (as : List Trig) : List Trig :=
  ((List.range as.length).filter (fun k => is_local_max g as k)).map
    (fun k => as.getD k default)

/-- The state of a freshly constructed (or `reset`) engine. -/
def initState : GenState := ⟨[], 0, 0, 0⟩

/-- One complete generator run of `__call__` over a finite input,
consumed to exhaustion: the main loop followed, when `autoflush` is
set, by the flush yields.  The flush updates `num_out` but leaves
`active_set` untouched, exactly as the code does. -/
def run (g : Gen) (input : List Trig) : List Trig × GenState :=
  let r := runList g initState input
  if g.autoflush then
    let f := flushEmits g r.2.active_set
    (r.1 ++ f, { r.2 with num_out := r.2.num_out + f.length })
  else r

/-! ## Basic facts about the dispersion delay function and construction -/

/-- C9: `dm_one_delay` returns exactly `4.15e3 * (freq_lo^-2 - freq_hi^-2)`
for all positive frequencies; in particular it returns `0` when the two
frequencies are equal and a negative value when `freq_lo > freq_hi`, and
signals no error in either case (it is total on positive inputs). -/
theorem dm_one_delay_contract : ∀ lo hi : ℚ, 0 < lo → 0 < hi →
    dm_one_delay lo hi = 4150 * (1 / lo ^ 2 - 1 / hi ^ 2) ∧
    (lo = hi → dm_one_delay lo hi = 0) ∧
    (hi < lo → dm_one_delay lo hi < 0) := by
  intro lo hi hlo hhi
  have e : ∀ x : ℚ, x ^ (-2 : ℤ) = (x ^ 2)⁻¹ := by
    intro x
    rw [show ((-2 : ℤ)) = -((2 : ℕ) : ℤ) from rfl, zpow_neg, zpow_natCast]
  refine ⟨?_, ?_, ?_⟩
  · rw [dm_one_delay, e, e, one_div, one_div]
  · intro h
    rw [dm_one_delay, h]
    ring
  · intro h
    rw [dm_one_delay, e, e]
    have h2 : hi ^ 2 < lo ^ 2 := by nlinarith
    have h3 : (lo ^ 2)⁻¹ < (hi ^ 2)⁻¹ := inv_strictAnti₀ (by positivity) h2
    nlinarith

/-- Witness for `dm_one_delay_contract` at `lo = 2`, `hi = 1`. -/
theorem dm_one_delay_contract_witness :
    dm_one_delay 2 1 = 4150 * (1 / 2 ^ 2 - 1 / 1 ^ 2) ∧
    ((2 : ℚ) = 1 → dm_one_delay 2 1 = 0) ∧
    ((1 : ℚ) < 2 → dm_one_delay 2 1 < 0) :=
  dm_one_delay_contract 2 1 (by decide) (by decide)

/-- C5 (counterexample): constructing the engine with an invalid
configuration does not fail: a negative tolerance, a negative frequency
and a zero neighbourhood size are all accepted and construction
completes. -/
theorem init_accepts_invalid_config :
    (init 1400 1600 (-1) 256 true 8 40).isSome = true ∧
    (init (-100) 1600 (1 / 10000) 256 true 8 40).isSome = true ∧
    (init 1400 1600 (1 / 10000) 256 true 0 40).isSome = true := by
  refine ⟨?_, ?_, ?_⟩ <;> norm_num [init]

/-- C5 (amended): the constructor performs no configuration validation.
For any nonzero frequencies it succeeds and stores the given parameters
unchanged — even a negative tolerance or a zero neighbourhood size —
and it fails (with the `ZeroDivisionError` of `freq**-2`) exactly when
one of the frequencies is zero. -/
theorem init_performs_no_validation :
    ∀ (lo hi tol : ℚ) (bs : ℕ) (af : Bool) (nn : ℕ) (md : ℚ),
    (lo ≠ 0 → hi ≠ 0 →
      init lo hi tol bs af nn md =
        some ⟨tol, dm_one_delay lo hi, bs, af, nn, md⟩) ∧
    (lo = 0 ∨ hi = 0 → init lo hi tol bs af nn md = none) := by
  intro lo hi tol bs af nn md
  constructor
  · intro h1 h2
    rw [init, if_neg]
    simp [h1, h2]
  · intro h
    rw [init, if_pos h]

/-- Witness for `init_performs_no_validation`: construction with a
negative tolerance succeeds. -/
theorem init_performs_no_validation_witness :
    init 1400 1600 (-1) 256 true 8 40 =
      some ⟨-1, dm_one_delay 1400 1600, 256, true, 8, 40⟩ :=
  (init_performs_no_validation 1400 1600 (-1) 256 true 8 40).1
    (by norm_num) (by norm_num)

/-! ## The expiry test -/

/-- C3 (counterexample): with `tol = 1`, the member `⟨0, 1, 0, 5, 0⟩`
(whose span is `[0, 1]`) is removed as expired when a trigger with
`start_time = 3/2` arrives, even though `span_end + tol < start_time`
fails (`1 + 1 ≥ 3/2`): the code tests `span_end < start_time` without
the tolerance. -/
theorem expiry_tolerance_counterexample :
    expiryRemaining ⟨1, 0, 0, true, 8, 40⟩ (3 / 2) [⟨0, 1, 0, 5, 0⟩] = [] ∧
    ¬ (b1 ⟨1, 0, 0, true, 8, 40⟩ ⟨0, 1, 0, 5, 0⟩ +
        Gen.tol ⟨1, 0, 0, true, 8, 40⟩ < 3 / 2) := by
  constructor
  · norm_num [expiryRemaining, expired, b0, b1]
  · norm_num [b0, b1]

/-- C3 (amended): on admission of an incoming trigger with start time
`t0x`, an active-set member `K` survives the expiry scan if and only if
`¬ (span_end K < t0x)` — the strict comparison uses the raw start time,
without adding the configured tolerance.  Stated both as a membership
equivalence and as a multiplicity equation. -/
theorem expiry_marks_iff_span_end_lt_start :
    ∀ (g : Gen) (t0x : ℚ) (as : List Trig) (K : Trig),
    (K ∈ expiryRemaining g t0x as ↔ K ∈ as ∧ ¬ (b1 g K < t0x)) ∧
    List.count K (expiryRemaining g t0x as) =
      if b1 g K < t0x then 0 else List.count K as := by
  intro g t0x as K
  constructor
  · simp [expiryRemaining, List.mem_filter, expired]
  · by_cases h : b1 g K < t0x
    · have hmem : K ∉ expiryRemaining g t0x as := by
        simp [expiryRemaining, List.mem_filter, expired, h]
      rw [if_pos h]
      exact List.count_eq_zero.mpr hmem
    · rw [if_neg h, expiryRemaining, List.count_filter]
      simp [expired, h]

/-! ## Selection helpers

`expiryEmits` and `flushEmits` both have the shape "select the elements
at the indices passing a predicate, in index order"; `sel` abstracts
that shape. -/

open List

/-- Index-based selection from a list. -/
def sel {α : Type} (as : List α) (d : α) (P : ℕ → Bool) : List α :=
  ((List.range as.length).filter P).map fun k => as.getD k d

theorem expiryEmits_eq_sel (g : Gen) (as : List Trig) (t0x : ℚ) :
    expiryEmits g as t0x =
      sel as default fun k =>
        expired g t0x (as.getD k default) && is_local_max g as k := rfl

theorem flushEmits_eq_sel (g : Gen) (as : List Trig) :
    flushEmits g as = sel as default fun k => is_local_max g as k := rfl

theorem sel_congr {α : Type} (as : List α) (d : α) {P Q : ℕ → Bool}
    (h : ∀ k, P k = Q k) : sel as d P = sel as d Q := by
  rw [sel, sel, List.filter_congr fun k _ => h k]

theorem sel_cons {α : Type} (a : α) (t : List α) (d : α) (P : ℕ → Bool) :
    sel (a :: t) d P =
      (if P 0 then [a] else []) ++ sel t d fun k => P (k + 1) := by
  have key : (((List.range t.length).map Nat.succ).filter P).map
        (fun k => (a :: t).getD k d) = sel t d fun k => P (k + 1) := by
    rw [List.filter_map, List.map_map, sel]
    have h1 : (List.range t.length).filter (P ∘ Nat.succ)
        = (List.range t.length).filter fun k => P (k + 1) :=
      List.filter_congr fun k _ => rfl
    rw [h1]
    exact List.map_congr_left fun k _ => by simp
  rw [sel, List.length_cons, List.range_succ_eq_map, List.filter_cons]
  by_cases h : P 0
  · rw [if_pos h, if_pos h, List.map_cons, key, List.singleton_append]
    simp [List.getD_cons_zero]
  · rw [if_neg h, if_neg h, key, List.nil_append]

theorem sel_sublist {α : Type} :
    ∀ (as : List α) (d : α) (P : ℕ → Bool), sel as d P <+ as := by
  intro as
  induction as with
  | nil => intro d P; simp [sel]
  | cons a t ih =>
    intro d P
    rw [sel_cons]
    by_cases h : P 0
    · rw [if_pos h]
      exact (ih d fun k => P (k + 1)).cons₂ a
    · rw [if_neg h, List.nil_append]
      exact (ih d fun k => P (k + 1)).cons a

theorem sel_sublist_filter {α : Type} (p : α → Bool) :
    ∀ (as : List α) (d : α) (q : ℕ → Bool),
    sel as d (fun k => p (as.getD k d) && q k) <+ as.filter p := by
  intro as
  induction as with
  | nil => intro d q; simp [sel]
  | cons a t ih =>
    intro d q
    rw [sel_cons]
    have e : sel t d (fun k => p ((a :: t).getD (k + 1) d) && q (k + 1))
        = sel t d fun k => p (t.getD k d) && q (k + 1) :=
      sel_congr t d fun k => by simp [List.getD_cons_succ]
    rw [e]
    by_cases hp : p a
    · rw [List.filter_cons_of_pos hp]
      by_cases hq : q 0
      · rw [if_pos (by simp [List.getD_cons_zero, hp, hq])]
        exact (ih d fun k => q (k + 1)).cons₂ a
      · rw [if_neg (by simp [List.getD_cons_zero, hp, hq]), List.nil_append]
        exact (ih d fun k => q (k + 1)).cons a
    · rw [List.filter_cons_of_neg hp,
        if_neg (by simp [List.getD_cons_zero, hp]), List.nil_append]
      exact ih d fun k => q (k + 1)

/-! ## Counting lemmas for the subset property -/

theorem expiryEmits_count_le (g : Gen) (as : List Trig) (t0x : ℚ) (a : Trig) :
    List.count a (expiryEmits g as t0x) ≤
      List.count a (as.filter (expired g t0x)) := by
  rw [expiryEmits_eq_sel]
  exact (sel_sublist_filter (expired g t0x) as default
    fun k => is_local_max g as k).count_le a

theorem flushEmits_count_le (g : Gen) (as : List Trig) (a : Trig) :
    List.count a (flushEmits g as) ≤ List.count a as := by
  rw [flushEmits_eq_sel]
  exact (sel_sublist as default fun k => is_local_max g as k).count_le a

theorem expiry_count_split (g : Gen) (t0x : ℚ) (as : List Trig) (a : Trig) :
    List.count a (as.filter (expired g t0x)) +
      List.count a (expiryRemaining g t0x as) = List.count a as := by
  have hperm := (List.filter_append_perm (expired g t0x) as).count_eq a
  rw [List.count_append] at hperm
  exact hperm

theorem evictWhile_emits_remaining_sublist (g : Gen) :
    ∀ as : List Trig, (evictWhile g as).1 ++ (evictWhile g as).2.1 <+ as := by
  intro as
  induction as with
  | nil => simp [evictWhile]
  | cons h t ih =>
    by_cases hc : g.buffer_size ≤ (h :: t).length
    · by_cases hv : is_local_max g (h :: t) 0
      · simp only [evictWhile, if_pos hc, if_pos hv, List.cons_append,
          List.nil_append, List.append_assoc]
        exact ih.cons₂ h
      · simp only [evictWhile, if_pos hc, if_neg hv, List.nil_append]
        exact ih.cons h
    · simp only [evictWhile]
      rw [if_neg hc]
      simp

theorem step_count_le (g : Gen) (s : GenState) (x : Trig) (a : Trig) :
    List.count a (step g s x).1 + List.count a (step g s x).2.active_set ≤
      List.count a (x :: s.active_set) := by
  have h2 := expiryEmits_count_le g s.active_set x.t0 a
  have h3 := expiry_count_split g x.t0 s.active_set a
  by_cases hbs : 0 < g.buffer_size
  · have h1 := (evictWhile_emits_remaining_sublist g
      (expiryRemaining g x.t0 s.active_set)).count_le a
    rw [List.count_append] at h1
    simp only [step, if_pos hbs, List.count_append, List.count_cons,
      List.count_nil]
    omega
  · simp only [step, if_neg hbs, List.count_append, List.count_cons,
      List.count_nil]
    omega

theorem runList_count_le (g : Gen) :
    ∀ (l : List Trig) (s : GenState) (a : Trig),
    List.count a (runList g s l).1 +
      List.count a (runList g s l).2.active_set ≤
      List.count a l + List.count a s.active_set := by
  intro l
  induction l with
  | nil => intro s a; simp [runList]
  | cons x rest ih =>
    intro s a
    have h1 := step_count_le g s x a
    have h2 := ih (step g s x).2 a
    simp only [List.count_cons] at h1
    simp only [runList, List.count_append, List.count_cons]
    omega

/-- C2: every emitted record of one full generator run is (a copy of) a
record of the input sequence, and the whole emission list uses each
input occurrence at most once — i.e. the emitted list is a
sub-permutation of the input.  This holds for every input sequence and
every configuration. -/
theorem run_emitted_subperm_input :
    ∀ (g : Gen) (input : List Trig), (run g input).1 <+~ input := by
  intro g input
  rw [List.subperm_ext_iff]
  intro a _
  have hr := runList_count_le g input initState a
  have h0 : List.count a initState.active_set = 0 := rfl
  by_cases haf : g.autoflush
  · have hf := flushEmits_count_le g (runList g initState input).2.active_set a
    simp only [run, if_pos haf, List.count_append]
    omega
  · simp only [run, if_neg haf]
    omega

/-! ## Capacity bound -/

theorem evictWhile_length_lt (g : Gen) (hbs : 0 < g.buffer_size) :
    ∀ as : List Trig, (evictWhile g as).2.1.length < g.buffer_size := by
  intro as
  induction as with
  | nil => simpa [evictWhile] using hbs
  | cons h t ih =>
    by_cases hc : g.buffer_size ≤ (h :: t).length
    · simpa only [evictWhile, if_pos hc] using ih
    · simp only [evictWhile, if_neg hc]
      omega

theorem step_active_length_le (g : Gen) (s : GenState) (x : Trig)
    (hbs : 0 < g.buffer_size) :
    (step g s x).2.active_set.length ≤ g.buffer_size := by
  have h := evictWhile_length_lt g hbs (expiryRemaining g x.t0 s.active_set)
  simp only [step, if_pos hbs, List.length_append, List.length_singleton]
  omega

theorem runList_nonempty_active_length_le (g : Gen)
    (hbs : 0 < g.buffer_size) :
    ∀ (l : List Trig) (s : GenState), l ≠ [] →
    (runList g s l).2.active_set.length ≤ g.buffer_size := by
  intro l
  induction l with
  | nil => intro s h; exact absurd rfl h
  | cons x rest ih =>
    intro s _
    by_cases hr : rest = []
    · subst hr
      simpa [runList] using step_active_length_le g s x hbs
    · simpa [runList] using ih (step g s x).2 hr

/-- C6: for every configuration with `buffer_size > 0` and every point
of a run at which the processing of one incoming trigger has just
completed (i.e. after any input prefix `p ++ [x]`), the active set
holds at most `buffer_size` members. -/
theorem active_set_bounded :
    ∀ (g : Gen) (p : List Trig) (x : Trig), 0 < g.buffer_size →
    (runList g initState (p ++ [x])).2.active_set.length ≤ g.buffer_size :=
  fun g p x hbs =>
    runList_nonempty_active_length_le g hbs (p ++ [x]) initState (by simp)

/-- Witness for `active_set_bounded` at a singleton input and
`buffer_size = 1`. -/
theorem active_set_bounded_witness :
    (runList ⟨0, 0, 1, true, 8, 40⟩ initState
      ([] ++ [⟨0, 1, 0, 5, 0⟩])).2.active_set.length ≤ 1 :=
  active_set_bounded ⟨0, 0, 1, true, 8, 40⟩ [] ⟨0, 1, 0, 5, 0⟩ (by decide)

/-! ## Characterisation of the capacity-eviction loop -/

theorem evictWhile_char (g : Gen) (hbs : 0 < g.buffer_size) :
    ∀ as : List Trig,
    (evictWhile g as).2.2 = as.length - min as.length (g.buffer_size - 1) ∧
    (evictWhile g as).2.1 = as.drop (evictWhile g as).2.2 ∧
    (evictWhile g as).1 =
      ((List.range (evictWhile g as).2.2).filter
        (fun i => is_local_max g (as.drop i) 0)).map
        (fun i => (as.drop i).headD default) := by
  intro as
  induction as with
  | nil =>
    simp only [evictWhile]
    refine ⟨by simp, rfl, by simp⟩
  | cons h t ih =>
    obtain ⟨ih1, ih2, ih3⟩ := ih
    by_cases hc : g.buffer_size ≤ (h :: t).length
    · have hlen : g.buffer_size ≤ t.length + 1 := by
        simpa using hc
      simp only [evictWhile, if_pos hc]
      refine ⟨?_, ?_, ?_⟩
      · simp only [List.length_cons]
        omega
      · rw [ih2, List.drop_succ_cons]
      · rw [List.range_succ_eq_map, List.filter_cons]
        have key : (((List.range (evictWhile g t).2.2).map Nat.succ).filter
              (fun i => is_local_max g ((h :: t).drop i) 0)).map
              (fun i => ((h :: t).drop i).headD default)
            = ((List.range (evictWhile g t).2.2).filter
              (fun i => is_local_max g (t.drop i) 0)).map
              (fun i => (t.drop i).headD default) := by
          rw [List.filter_map, List.map_map]
          have h1 : (List.range (evictWhile g t).2.2).filter
                ((fun i => is_local_max g ((h :: t).drop i) 0) ∘ Nat.succ)
              = (List.range (evictWhile g t).2.2).filter
                (fun i => is_local_max g (t.drop i) 0) :=
            List.filter_congr fun k _ => by
              simp [Function.comp, List.drop_succ_cons]
          rw [h1]
          exact List.map_congr_left fun k _ => by
            simp [Function.comp, List.drop_succ_cons]
        by_cases hv : is_local_max g (h :: t) 0
        · rw [if_pos hv, if_pos (by simpa using hv), List.map_cons, key, ih3]
          simp
        · rw [if_neg hv, if_neg (by simpa using hv), key, ih3]
          simp
    · have hlen : t.length + 1 < g.buffer_size := by
        simp only [List.length_cons] at hc
        omega
      simp only [evictWhile, if_neg hc]
      refine ⟨?_, rfl, by simp⟩
      simp only [List.length_cons]
      omega

/-- C7: for every admission step with `buffer_size > 0`, the eviction
loop evicts oldest members, regardless of expiry status, until the
active set is smaller than `buffer_size` (so the number evicted is
`len - min len (buffer_size - 1)`); the remaining set is the
corresponding suffix; the emitted list consists exactly of those
evicted members whose local-maximum verdict, computed against the
active set as it exists immediately before their own eviction, is
positive, in eviction order; and the step adds exactly one to the
eviction counter per evicted member. -/
theorem eviction_loop_spec :
    ∀ (g : Gen) (as : List Trig) (s : GenState) (x : Trig),
    0 < g.buffer_size →
    (evictWhile g as).2.2 = as.length - min as.length (g.buffer_size - 1) ∧
    (evictWhile g as).2.1 = as.drop (evictWhile g as).2.2 ∧
    (evictWhile g as).1 =
      ((List.range (evictWhile g as).2.2).filter
        (fun i => is_local_max g (as.drop i) 0)).map
        (fun i => (as.drop i).headD default) ∧
    (step g s x).2.num_evicted =
      s.num_evicted +
        (evictWhile g (expiryRemaining g x.t0 s.active_set)).2.2 := by
  intro g as s x hbs
  obtain ⟨h1, h2, h3⟩ := evictWhile_char g hbs as
  exact ⟨h1, h2, h3, by simp [step, if_pos hbs]⟩

/-- Witness for `eviction_loop_spec`: one trigger in the active set,
`buffer_size = 1`, so the single member is evicted. -/
theorem eviction_loop_spec_witness :
    (evictWhile (Gen.mk 0 0 1 true 8 40) [Trig.mk 0 1 0 5 0]).2.2 =
      [Trig.mk 0 1 0 5 0].length - min [Trig.mk 0 1 0 5 0].length
        (Gen.buffer_size (Gen.mk 0 0 1 true 8 40) - 1) ∧
    (evictWhile (Gen.mk 0 0 1 true 8 40) [Trig.mk 0 1 0 5 0]).2.1 =
      [Trig.mk 0 1 0 5 0].drop
        (evictWhile (Gen.mk 0 0 1 true 8 40) [Trig.mk 0 1 0 5 0]).2.2 ∧
    (evictWhile (Gen.mk 0 0 1 true 8 40) [Trig.mk 0 1 0 5 0]).1 =
      ((List.range
        (evictWhile (Gen.mk 0 0 1 true 8 40) [Trig.mk 0 1 0 5 0]).2.2).filter
        (fun i => is_local_max (Gen.mk 0 0 1 true 8 40)
          ([Trig.mk 0 1 0 5 0].drop i) 0)).map
        (fun i => ([Trig.mk 0 1 0 5 0].drop i).headD default) ∧
    (step (Gen.mk 0 0 1 true 8 40) initState (Trig.mk 2 1 0 5 1)).2.num_evicted =
      initState.num_evicted +
        (evictWhile (Gen.mk 0 0 1 true 8 40)
          (expiryRemaining (Gen.mk 0 0 1 true 8 40)
            (Trig.t0 (Trig.mk 2 1 0 5 1)) initState.active_set)).2.2 :=
  eviction_loop_spec (Gen.mk 0 0 1 true 8 40) [Trig.mk 0 1 0 5 0] initState
    (Trig.mk 2 1 0 5 1) (by decide)

/-! ## Membership in the emitted lists -/

theorem mem_sel {α : Type} (as : List α) (d : α) (P : ℕ → Bool) (e : α) :
    e ∈ sel as d P ↔ ∃ k, k < as.length ∧ P k = true ∧ e = as.getD k d := by
  rw [sel]
  simp only [List.mem_map, List.mem_filter, List.mem_range]
  constructor
  · rintro ⟨k, ⟨hk, hP⟩, he⟩
    exact ⟨k, hk, hP, he.symm⟩
  · rintro ⟨k, hk, hP, he⟩
    exact ⟨k, ⟨hk, hP⟩, he.symm⟩

theorem evictWhile_mem_emits (g : Gen) :
    ∀ (as : List Trig) (e : Trig), e ∈ (evictWhile g as).1 →
    ∃ i, e = (as.drop i).headD default ∧
      is_local_max g (as.drop i) 0 = true := by
  intro as
  induction as with
  | nil => intro e h; simp [evictWhile] at h
  | cons hh t ih =>
    intro e h
    by_cases hc : g.buffer_size ≤ (hh :: t).length
    · simp only [evictWhile, if_pos hc, List.mem_append] at h
      rcases h with h | h
      · by_cases hv : is_local_max g (hh :: t) 0
        · rw [if_pos hv] at h
          simp only [List.mem_singleton] at h
          exact ⟨0, by simpa using h, by simpa using hv⟩
        · rw [if_neg hv] at h
          simp at h
      · obtain ⟨i, hi1, hi2⟩ := ih e h
        exact ⟨i + 1, by simpa [List.drop_succ_cons] using hi1,
          by simpa [List.drop_succ_cons] using hi2⟩
    · simp only [evictWhile, if_neg hc] at h
      simp at h

/-! ## The autoflush phase -/

/-- C4 (counterexample): a run over one trigger with autoflush enabled
emits the trigger, but the active set is *not* left empty afterwards —
the flush loop of `__call__` never deletes from `active_set`. -/
theorem autoflush_leaves_active_set :
    (run (Gen.mk 0 0 0 true 8 40) [Trig.mk 0 1 0 9 1]).2.active_set
      = [Trig.mk 0 1 0 9 1] ∧
    (run (Gen.mk 0 0 0 true 8 40) [Trig.mk 0 1 0 9 1]).1
      = [Trig.mk 0 1 0 9 1] := by
  constructor <;>
    norm_num [run, runList, step, expiryEmits, expiryRemaining, evictWhile,
      flushEmits, is_local_max, scanNb, expired, b0, b1, initState,
      List.range_succ, default]

/-- C4 (amended): with autoflush enabled, after the input is exhausted
the engine emits, after the main-loop output, exactly the members of
the final active set that pass the local-maximum test at their own
position against that final active set, in active-set order (the
emitted flush list is an order-preserving sublist of the active set,
and membership is characterised by the test) — but the active set is
left unchanged, not emptied. -/
theorem autoflush_spec :
    ∀ (g : Gen) (input as : List Trig) (e : Trig), g.autoflush = true →
    ((run g input).1 =
      (runList g initState input).1 ++
        flushEmits g (runList g initState input).2.active_set) ∧
    ((run g input).2.active_set = (runList g initState input).2.active_set) ∧
    flushEmits g as <+ as ∧
    (e ∈ flushEmits g as ↔
      ∃ k, k < as.length ∧ is_local_max g as k = true ∧
        e = as.getD k default) := by
  intro g input as e haf
  refine ⟨by simp [run, haf], by simp [run, haf], ?_, ?_⟩
  · rw [flushEmits_eq_sel]
    exact sel_sublist as default _
  · rw [flushEmits_eq_sel]
    exact mem_sel as default _ e

/-- Witness for `autoflush_spec` at a concrete configuration, input and
element. -/
theorem autoflush_spec_witness :
    ((run (Gen.mk 0 0 0 true 8 40) [Trig.mk 0 1 0 9 1]).1 =
      (runList (Gen.mk 0 0 0 true 8 40) initState [Trig.mk 0 1 0 9 1]).1 ++
        flushEmits (Gen.mk 0 0 0 true 8 40)
          (runList (Gen.mk 0 0 0 true 8 40) initState
            [Trig.mk 0 1 0 9 1]).2.active_set) ∧
    ((run (Gen.mk 0 0 0 true 8 40) [Trig.mk 0 1 0 9 1]).2.active_set =
      (runList (Gen.mk 0 0 0 true 8 40) initState
        [Trig.mk 0 1 0 9 1]).2.active_set) ∧
    flushEmits (Gen.mk 0 0 0 true 8 40) [Trig.mk 0 1 0 9 1]
      <+ [Trig.mk 0 1 0 9 1] ∧
    (Trig.mk 0 1 0 9 1 ∈ flushEmits (Gen.mk 0 0 0 true 8 40)
        [Trig.mk 0 1 0 9 1] ↔
      ∃ k, k < [Trig.mk 0 1 0 9 1].length ∧
        is_local_max (Gen.mk 0 0 0 true 8 40) [Trig.mk 0 1 0 9 1] k = true ∧
        Trig.mk 0 1 0 9 1 = [Trig.mk 0 1 0 9 1].getD k default) :=
  autoflush_spec (Gen.mk 0 0 0 true 8 40) [Trig.mk 0 1 0 9 1]
    [Trig.mk 0 1 0 9 1] (Trig.mk 0 1 0 9 1) rfl

/-! ## The local-maximum guarantee for emitted triggers -/

/-- C1 (counterexample): in the run over the three triggers
`A = (0, 1, 0, 9)`, `B = (0.9, 5, 0, 5)`, `C = (2, 1, 0, 1)` (with
`dm1 = 0`, `tol = 0`, unbounded capacity, autoflush), the weaker
trigger `B` is emitted even though `A` — which was simultaneously in
the active set with `B`, has the same dispersion measure, and overlaps
`B`'s span within the tolerance — has `signal_strength 9 ≥ 5`.  `A` is
expired and removed when `C` arrives, so `B`'s own test never sees it. -/
theorem p3_counterexample :
    Trig.mk (9/10) 5 0 5 2 ∈ (run (Gen.mk 0 0 0 true 8 40)
      [Trig.mk 0 1 0 9 1, Trig.mk (9/10) 5 0 5 2, Trig.mk 2 1 0 1 3]).1 ∧
    (runList (Gen.mk 0 0 0 true 8 40) initState
      [Trig.mk 0 1 0 9 1, Trig.mk (9/10) 5 0 5 2]).2.active_set
      = [Trig.mk 0 1 0 9 1, Trig.mk (9/10) 5 0 5 2] ∧
    |Trig.dm (Trig.mk 0 1 0 9 1) - Trig.dm (Trig.mk (9/10) 5 0 5 2)| ≤
      Gen.max_dm_diff (Gen.mk 0 0 0 true 8 40) ∧
    b0 (Gen.mk 0 0 0 true 8 40) (Trig.mk (9/10) 5 0 5 2) ≤
      b1 (Gen.mk 0 0 0 true 8 40) (Trig.mk 0 1 0 9 1) +
        Gen.tol (Gen.mk 0 0 0 true 8 40) ∧
    b0 (Gen.mk 0 0 0 true 8 40) (Trig.mk 0 1 0 9 1) ≤
      b1 (Gen.mk 0 0 0 true 8 40) (Trig.mk (9/10) 5 0 5 2) +
        Gen.tol (Gen.mk 0 0 0 true 8 40) ∧
    Trig.snr (Trig.mk (9/10) 5 0 5 2) ≤ Trig.snr (Trig.mk 0 1 0 9 1) ∧
    Trig.mk 0 1 0 9 1 ≠ Trig.mk (9/10) 5 0 5 2 := by
  have hrun : (run (Gen.mk 0 0 0 true 8 40)
      [Trig.mk 0 1 0 9 1, Trig.mk (9/10) 5 0 5 2, Trig.mk 2 1 0 1 3]).1
      = [Trig.mk 0 1 0 9 1, Trig.mk (9/10) 5 0 5 2] := by
    norm_num [run, runList, step, expiryEmits, expiryRemaining, evictWhile,
      flushEmits, is_local_max, scanNb, expired, b0, b1, initState,
      List.range_succ, default]
  refine ⟨by rw [hrun]; simp, ?_, ?_, ?_, ?_, ?_, ?_⟩
  · norm_num [runList, step, expiryEmits, expiryRemaining, evictWhile,
      is_local_max, scanNb, expired, b0, b1, initState,
      List.range_succ, default]
  · norm_num
  · norm_num [b0, b1]
  · norm_num [b0, b1]
  · norm_num
  · simp only [ne_eq, Trig.mk.injEq, not_and]
    norm_num

/-- C1 (amended): every trigger emitted by an admission step or by the
flush did pass the local-maximum test, evaluated at the moment of its
emission: an expiry emission passed the test at its own position
against the still-intact active set; a capacity eviction passed the
test at position 0 against the active set as it stood immediately
before that eviction; a flush emission passed the test at its own
position against the final active set.  (The original claim — that no
trigger *ever* simultaneously active, DM-eligible and overlapping was
at least as strong — is refuted by `p3_counterexample`: the guarantee
only covers triggers still present and within the scanned
neighbourhood when the test runs.) -/
theorem emitted_passes_local_max :
    ∀ (g : Gen) (s : GenState) (x : Trig) (as : List Trig) (e : Trig),
    (e ∈ (step g s x).1 →
      (∃ k, k < s.active_set.length ∧
        is_local_max g s.active_set k = true ∧
        e = s.active_set.getD k default) ∨
      (∃ i, e = ((expiryRemaining g x.t0 s.active_set).drop i).headD default ∧
        is_local_max g ((expiryRemaining g x.t0 s.active_set).drop i) 0
          = true)) ∧
    (e ∈ flushEmits g as →
      ∃ k, k < as.length ∧ is_local_max g as k = true ∧
        e = as.getD k default) := by
  intro g s x as e
  constructor
  · intro h
    simp only [step, List.mem_append] at h
    rcases h with h | h
    · left
      rw [expiryEmits_eq_sel, mem_sel] at h
      obtain ⟨k, hk, hP, he⟩ := h
      rw [Bool.and_eq_true] at hP
      exact ⟨k, hk, hP.2, he⟩
    · right
      by_cases hbs : 0 < g.buffer_size
      · rw [if_pos hbs] at h
        exact evictWhile_mem_emits g _ e h
      · rw [if_neg hbs] at h
        simp at h
  · intro h
    rw [flushEmits_eq_sel, mem_sel] at h
    obtain ⟨k, hk, hP, he⟩ := h
    exact ⟨k, hk, hP, he⟩

/-- Witness for `emitted_passes_local_max`: the flush part applied to a
singleton active set. -/
theorem emitted_passes_local_max_witness :
    ∃ k, k < [Trig.mk 0 1 0 9 1].length ∧
      is_local_max (Gen.mk 0 0 0 true 8 40) [Trig.mk 0 1 0 9 1] k = true ∧
      Trig.mk 0 1 0 9 1 = [Trig.mk 0 1 0 9 1].getD k default :=
  (emitted_passes_local_max (Gen.mk 0 0 0 true 8 40) initState
    (Trig.mk 0 1 0 9 1) [Trig.mk 0 1 0 9 1] (Trig.mk 0 1 0 9 1)).2
    (by decide)

/-! ## Ties favour rejection -/

theorem tie_left (g : Gen) (pre : List Trig) (n cand : Trig) (post : List Trig)
    (hdm : |cand.dm - n.dm| ≤ g.max_dm_diff)
    (hov : b0 g cand ≤ b1 g n + g.tol)
    (hsnr : n.snr = cand.snr) :
    is_local_max g (pre ++ n :: cand :: post) (pre.length + 1) = false := by
  have hcand : (pre ++ n :: cand :: post).getD (pre.length + 1) default
      = cand := by
    simp [List.getD_eq_getElem?_getD, List.getElem?_append_right,
      List.getElem_append_right]
  have htake : ((pre ++ n :: cand :: post).take (pre.length + 1)).reverse
      = n :: pre.reverse := by
    rw [List.take_append_eq_append_take]
    simp
  simp only [is_local_max]
  rw [hcand, htake]
  simp only [scanNb]
  rw [if_pos hdm]
  simp only [decide_eq_true hov, if_pos rfl]
  rw [if_pos (le_of_eq hsnr.symm)]
  simp

theorem tie_right (g : Gen) (pre : List Trig) (cand m : Trig)
    (post : List Trig)
    (hdm : |cand.dm - m.dm| ≤ g.max_dm_diff)
    (hov : b1 g m ≤ b1 g cand + g.tol)
    (hsnr : m.snr = cand.snr) :
    is_local_max g (pre ++ cand :: m :: post) pre.length = false := by
  have hcand : (pre ++ cand :: m :: post).getD pre.length default = cand := by
    simp [List.getD_eq_getElem?_getD, List.getElem?_append_right,
      List.getElem_append_right]
  have hdrop : (pre ++ cand :: m :: post).drop (pre.length + 1)
      = m :: post := by
    rw [List.drop_append_eq_append_drop]
    simp
  simp only [is_local_max]
  rw [hcand, hdrop]
  simp only [scanNb]
  rw [if_pos hdm]
  simp only [decide_eq_true hov, if_pos rfl]
  rw [if_pos (le_of_eq hsnr.symm)]
  simp

/-- C8: in the local-maximum test a DM-eligible overlapping neighbour
with signal strength *equal* to the candidate's suffices to reject the
candidate, on both the left scan (adjacent left neighbour, left-side
overlap test) and the right scan (adjacent right neighbour, right-side
overlap test); and in Scenario A — two triggers with identical span and
DM and strengths 5.0 then 9.0, fed in that order with unbounded
capacity and zero tolerance — only the 9.0-strength trigger is
emitted. -/
theorem tie_favours_rejection :
    (∀ (g : Gen) (pre : List Trig) (n cand : Trig) (post : List Trig),
      |cand.dm - n.dm| ≤ g.max_dm_diff →
      b0 g cand ≤ b1 g n + g.tol →
      n.snr = cand.snr →
      is_local_max g (pre ++ n :: cand :: post) (pre.length + 1) = false) ∧
    (∀ (g : Gen) (pre : List Trig) (cand m : Trig) (post : List Trig),
      |cand.dm - m.dm| ≤ g.max_dm_diff →
      b1 g m ≤ b1 g cand + g.tol →
      m.snr = cand.snr →
      is_local_max g (pre ++ cand :: m :: post) pre.length = false) ∧
    (run (Gen.mk 0 0 0 true 8 40)
      [Trig.mk 0 1 0 5 1, Trig.mk 0 1 0 9 2]).1 = [Trig.mk 0 1 0 9 2] := by
  refine ⟨tie_left, tie_right, ?_⟩
  norm_num [run, runList, step, expiryEmits, expiryRemaining, evictWhile,
    flushEmits, is_local_max, scanNb, expired, b0, b1, initState,
    List.range_succ, default]

/-- Witness for `tie_favours_rejection`: two equal-strength triggers
with identical spans; whichever is the candidate, the other rejects
it. -/
theorem tie_favours_rejection_witness :
    is_local_max (Gen.mk 0 0 0 true 8 40)
      [Trig.mk 0 0 0 5 1, Trig.mk 0 0 0 5 2] 1 = false ∧
    is_local_max (Gen.mk 0 0 0 true 8 40)
      [Trig.mk 0 0 0 5 2, Trig.mk 0 0 0 5 1] 0 = false :=
  ⟨tie_favours_rejection.1 (Gen.mk 0 0 0 true 8 40) []
      (Trig.mk 0 0 0 5 1) (Trig.mk 0 0 0 5 2) []
      (by simp) (by simp [b0, b1]) rfl,
   tie_favours_rejection.2.1 (Gen.mk 0 0 0 true 8 40) []
      (Trig.mk 0 0 0 5 2) (Trig.mk 0 0 0 5 1) []
      (by simp) (by simp [b0, b1]) rfl⟩

/-! ## Buffer size one is a pass-through -/

theorem is_local_max_singleton (g : Gen) (a : Trig) :
    is_local_max g [a] 0 = true := rfl

theorem step_bs1_emits (g : Gen) (hbs : g.buffer_size = 1) (s : GenState)
    (a x : Trig) (hact : s.active_set = [a]) :
    (step g s x).1 = [a] ∧ (step g s x).2.active_set = [x] := by
  by_cases hexp : expired g x.t0 a
  · have he : expiryEmits g s.active_set x.t0 = [a] := by
      rw [hact, expiryEmits]
      simp [List.range_succ, hexp, is_local_max_singleton]
    have hr : expiryRemaining g x.t0 s.active_set = [] := by
      rw [hact, expiryRemaining]
      simp [hexp]
    constructor <;> simp [step, he, hr, evictWhile]
  · have he : expiryEmits g s.active_set x.t0 = [] := by
      rw [hact, expiryEmits]
      simp [List.range_succ, hexp]
    have hr : expiryRemaining g x.t0 s.active_set = [a] := by
      rw [hact, expiryRemaining]
      simp [hexp]
    have hev : evictWhile g [a] = ([a], [], 1) := by
      simp [evictWhile, hbs, is_local_max_singleton]
    constructor <;> simp [step, he, hr, hev, hbs]

theorem step_empty_active (g : Gen) (s : GenState) (x : Trig)
    (hact : s.active_set = []) :
    (step g s x).1 = [] ∧ (step g s x).2.active_set = [x] := by
  have he : expiryEmits g s.active_set x.t0 = [] := by
    rw [hact, expiryEmits]
    simp
  have hr : expiryRemaining g x.t0 s.active_set = [] := by
    rw [hact, expiryRemaining]
    simp
  constructor <;> simp [step, he, hr, evictWhile, ite_self]

theorem runList_bs1 (g : Gen) (hbs : g.buffer_size = 1) :
    ∀ (l : List Trig) (s : GenState) (a : Trig), s.active_set = [a] →
    (runList g s l).1 ++ (runList g s l).2.active_set = a :: l ∧
    ∃ b, (runList g s l).2.active_set = [b] := by
  intro l
  induction l with
  | nil =>
    intro s a hact
    refine ⟨by simp [runList, hact], a, by simp [runList, hact]⟩
  | cons x rest ih =>
    intro s a hact
    obtain ⟨h1, h2⟩ := step_bs1_emits g hbs s a x hact
    obtain ⟨iha, ihb⟩ := ih (step g s x).2 x h2
    constructor
    · simp only [runList, List.append_assoc]
      rw [h1, iha]
      rfl
    · simpa [runList] using ihb

/-- C10: with `buffer_size = 1` and autoflush enabled the filter is a
pass-through — the run over any finite input emits exactly the input
list, every trigger once, in input order.  (Each member is tested only
while it is the sole element of the active set, so the test always
succeeds.) -/
theorem buffer_one_pass_through :
    ∀ (g : Gen) (input : List Trig),
    g.buffer_size = 1 → g.autoflush = true →
    (run g input).1 = input := by
  intro g input hbs haf
  cases input with
  | nil => simp [run, haf, runList, flushEmits, initState]
  | cons x rest =>
    obtain ⟨h1, h2⟩ := step_empty_active g initState x rfl
    obtain ⟨ha, b, hb⟩ := runList_bs1 g hbs rest (step g initState x).2 x h2
    have hflush : flushEmits g [b] = [b] := by
      rw [flushEmits]
      simp [List.range_succ, is_local_max_singleton]
    simp only [run, if_pos haf, runList]
    rw [h1, List.nil_append, hb, hflush, ← hb]
    exact ha

/-- Witness for `buffer_one_pass_through` at a concrete configuration
and input. -/
theorem buffer_one_pass_through_witness :
    (run (Gen.mk 0 0 1 true 8 40) [Trig.mk 0 1 0 9 1]).1
      = [Trig.mk 0 1 0 9 1] :=
  buffer_one_pass_through (Gen.mk 0 0 1 true 8 40) [Trig.mk 0 1 0 9 1] rfl rfl
